import Mathlib

/-!
Shallow embedding of `src/analyze_spectra.py` (a Colab-style Raman
spectra analysis script).  Intensity values are modelled as exact
rationals (`ℚ`); an intensity matrix is a `List (List ℚ)` whose rows are
the observations.  The dataframe `measurement_df` built in the script is
ten metadata columns followed by the intensity columns, so dataframe
column position `10 + j` holds intensity column `j`; the embedding keeps
only the numeric intensity part and states column-position facts through
that correspondence.
-/

/-- `np.max(row)` over one spectrum row (0 for an empty row, which the
script never produces). -/
def list_max : List ℚ → ℚ
  | [] => 0
  | x :: xs => xs.foldl max x

/-- `np.min(row)`; companion of `list_max`. -/
def list_min : List ℚ → ℚ
  | [] => 0
  | x :: xs => xs.foldl min x

/-- `peak_intensities = np.max(intensities, axis=1)` (line 173). -/
def peak_intensities (M : List (List ℚ)) : List ℚ := M.map list_max

/-- Bin index assigned to value `x` by a 256-bin uniform histogram over
`[l, h]`, as `np.histogram(values, bins=256)` assigns it: uniform bin
edges, right-most edge inclusive. -/
def bin_index (l h x : ℚ) : ℕ :=
  min (Rat.floor ((x - l) * 256 / (h - l))).toNat 255

/-- The 256 histogram bin counts of `values` over `[l, h]`, cast to `ℚ`
(`skimage` casts the counts to float). -/
def hist_counts (values : List ℚ) (l h : ℚ) : List ℚ :=
  (List.range 256).map fun k => ((values.countP fun x => bin_index l h x == k : ℕ) : ℚ)

/-- Histogram bin centers `(bin_edges[:-1] + bin_edges[1:]) / 2` for the
256-bin histogram over `[l, h]`. -/
def bin_centers (l h : ℚ) : List ℚ :=
  (List.range 256).map fun k => l + (2 * (k : ℚ) + 1) * (h - l) / 512

/-- `np.cumsum`. -/
def cumsum (xs : List ℚ) : List ℚ := (xs.scanl (· + ·) 0).drop 1

/-- `np.argmax`: index of the first occurrence of the maximum (0 on an
empty array, a case the script never reaches). -/
def idx_of_max : List ℚ → ℕ
  | [] => 0
  | x :: xs =>
    (xs.foldl
      (fun acc v =>
        if acc.2.1 < v then (acc.2.2, v, acc.2.2 + 1) else (acc.1, acc.2.1, acc.2.2 + 1))
      ((0 : ℕ), x, (1 : ℕ))).1

/-- Models `skimage.filters.threshold_otsu(values)` with its default
`nbins=256`, as called on line 182: if every value equals the first, the
first value is returned ( the library's constant-input early return);
otherwise the 256-bin histogram of the values is built over
`[min, max]`, class weights and means are the forward/backward cumulative
sums, the inter-class variance `weight1[:-1] * weight2[1:] *
(mean1[:-1] - mean2[1:])**2` is maximised, and the corresponding bin
center is returned. -/
def threshold_otsu (values : List ℚ) : ℚ :=
  match values with
  | [] => 0
  | p :: rest =>
    if rest.all fun x => decide (x = p) then p
    else
      let l := list_min (p :: rest)
      let h := list_max (p :: rest)
      let counts := hist_counts (p :: rest) l h
      let centers := bin_centers l h
      let prods := List.zipWith (· * ·) counts centers
      let weight1 := cumsum counts
      let weight2 := (cumsum counts.reverse).reverse
      let mean1 := List.zipWith (· / ·) (cumsum prods) weight1
      let mean2 := (List.zipWith (· / ·) (cumsum prods.reverse) (cumsum counts.reverse)).reverse
      let variance12 :=
        List.zipWith (fun a b => a.1 * b.1 * (a.2 - b.2) ^ 2)
          ((weight1.zip mean1).dropLast) ((weight2.zip mean2).drop 1)
      centers.getD (idx_of_max variance12) 0

/-- `threshold_relaxed = threshold * r` for a general relax factor `r`
(the script hardcodes `r = 0.715` on line 185). -/
def threshold_relaxed_r (M : List (List ℚ)) (r : ℚ) : ℚ :=
  threshold_otsu (peak_intensities M) * r

/-- `threshold_relaxed = threshold * 0.715` (line 185). -/
def threshold_relaxed (M : List (List ℚ)) : ℚ := threshold_relaxed_r M (715 / 1000)

/-- Indices appended to `strong_spectra` by the loop on lines 233-238,
for a general relax factor. -/
def strong_spectra_r (M : List (List ℚ)) (r : ℚ) : List ℕ :=
  (List.range (peak_intensities M).length).filter fun i =>
    decide (threshold_relaxed_r M r ≤ (peak_intensities M).getD i 0)

/-- Indices appended to `weak_spectra` by the loop on lines 233-238, for
a general relax factor. -/
def weak_spectra_r (M : List (List ℚ)) (r : ℚ) : List ℕ :=
  (List.range (peak_intensities M).length).filter fun i =>
    decide ((peak_intensities M).getD i 0 < threshold_relaxed_r M r)

/-- `strong_spectra` of the script's run (relax factor 0.715). -/
def strong_spectra (M : List (List ℚ)) : List ℕ := strong_spectra_r M (715 / 1000)

/-- `weak_spectra` of the script's run (relax factor 0.715). -/
def weak_spectra (M : List (List ℚ)) : List ℕ := weak_spectra_r M (715 / 1000)

/-- The values sorted ascending (pandas sorts before interpolating a
quantile). -/
def sorted_vals (xs : List ℚ) : List ℚ := List.insertionSort (· ≤ ·) xs

/-- Linear interpolation of a sorted sequence `s` at fractional position
`h`: `s[lo] + (h - lo) * (s[lo+1] - s[lo])` with `lo = ⌊h⌋`. Out-of-range
reads fall back so that the interpolation term vanishes. -/
def interp (s : List ℚ) (h : ℚ) : ℚ :=
  let lo := (Rat.floor h).toNat
  s.getD lo 0 + (h - (lo : ℚ)) * (s.getD (lo + 1) (s.getD lo 0) - s.getD lo 0)

/-- `Series.quantile(q)` with pandas' default linear interpolation:
position `h = (n - 1) * q` in the sorted values. -/
def quantile (xs : List ℚ) (q : ℚ) : ℚ :=
  interp (sorted_vals xs) (((xs.length : ℚ) - 1) * q)

/-- Number of intensity columns (`wave_num`, the dataframe columns from
position 10 on). -/
def num_cols (M : List (List ℚ)) : ℕ := (M.headD []).length

/-- `measurement_df[wave]`: the column of values at intensity column `w`
across all observations. -/
def col_vals (M : List (List ℚ)) (w : ℕ) : List ℚ :=
  M.map fun r => r.getD w 0

/-- `lower_bound = q1 - klo * iqr` for intensity column `w` (line 378,
with `klo = 5` in the script). -/
def lower_bound (M : List (List ℚ)) (w : ℕ) (klo : ℚ) : ℚ :=
  quantile (col_vals M w) (1 / 4) -
    klo * (quantile (col_vals M w) (3 / 4) - quantile (col_vals M w) (1 / 4))

/-- `upper_bound = q3 + khi * iqr` for intensity column `w` (line 379,
with `khi = 4` in the script). -/
def upper_bound (M : List (List ℚ)) (w : ℕ) (khi : ℚ) : ℚ :=
  quantile (col_vals M w) (3 / 4) +
    khi * (quantile (col_vals M w) (3 / 4) - quantile (col_vals M w) (1 / 4))

/-- `outlier`: the contributing columns, collected by the first pass
(lines 373-382): a column is kept iff some observation's value is
strictly below the lower bound or strictly above the upper bound. -/
def outlier (M : List (List ℚ)) (klo khi : ℚ) : List ℕ :=
  (List.range (num_cols M)).filter fun w =>
    decide (∃ x ∈ col_vals M w, x < lower_bound M w klo ∨ upper_bound M w khi < x)

/-- `strong_spectra_approach2` (lines 389-402): for each contributing
column, the indices of the rows whose value is `≤ lower_bound` or
`≥ upper_bound` (note: non-strict, unlike the first pass), all
concatenated. -/
def strong_spectra_approach2 (M : List (List ℚ)) (klo khi : ℚ) : List ℕ :=
  (outlier M klo khi).flatMap fun w =>
    (List.range M.length).filter fun i =>
      decide ((col_vals M w).getD i 0 ≤ lower_bound M w klo ∨
        upper_bound M w khi ≤ (col_vals M w).getD i 0)

/-- Index set of `measurement_weak` (line 438): the rows whose index is
not in `set(strong_spectra_approach2)`. -/
def measurement_weak_idx (M : List (List ℚ)) (klo khi : ℚ) : List ℕ :=
  (List.range M.length).filter fun i =>
    decide (i ∉ strong_spectra_approach2 M klo khi)

/-- `media_intensities = media_df.iloc[:, 11:].values` flattened, i.e.
the reference values with the first intensity column of each row dropped
(dataframe position 11 is intensity column 1); `np.isin` tests
membership against this flattened pool (line 591). -/
def media_intensities (media : List (List ℚ)) : List ℚ :=
  (media.map (List.drop 1)).flatten

/-- `mask = np.logical_not(np.isin(measurement_df.iloc[:, 11:].values,
media_intensities).all(axis=1))` (line 594): a row is `True` (strong) iff
some of its values from intensity column 1 on is absent from the
flattened reference pool. -/
def mask (meas media : List (List ℚ)) : List Bool :=
  meas.map fun r => !((r.drop 1).all fun x => decide (x ∈ media_intensities media))

/-- Index set of `strong_filtered_measurement_df = measurement_df[mask]`
(line 597). -/
def strong_filtered_idx (meas media : List (List ℚ)) : List ℕ :=
  (List.range meas.length).filter fun i => (mask meas media).getD i false

/-- `non_matching_indexes = measurement_df[~mask].index` (line 600): the
weak rows of approach 3. -/
def non_matching_indexes (meas media : List (List ℚ)) : List ℕ :=
  (List.range meas.length).filter fun i => !(mask meas media).getD i false

/-- The whole approach-3 run, with the wavenumber axes of both datasets
in scope exactly as in the script (lines 94-97 read them, lines 590-600
never consult them): the partition is computed from the intensity values
alone. -/
def ref_match_run (measAxis mediaAxis : List ℚ) (meas media : List (List ℚ)) :
    List ℕ × List ℕ :=
  (strong_filtered_idx meas media, non_matching_indexes meas media)

/-- `df['DateTime'].dt.floor('10Min')` (line 316), on timestamps in
minutes: round down to the containing multiple of 10. -/
def dateTime_rounded (t : ℤ) : ℤ := 10 * Int.fdiv t 10

/-- The index of `count_by_period` after `sort_index()` (lines 319-322):
the distinct bucket starts in ascending order. -/
def count_by_period_starts (ts : List ℤ) : List ℤ :=
  List.insertionSort (· ≤ ·) (ts.map dateTime_rounded).dedup

/-- The values of `count_by_period` in index order: for each bucket
start, the number of observations whose rounded timestamp equals it. -/
def count_by_period_counts (ts : List ℤ) : List ℕ :=
  (count_by_period_starts ts).map fun s => (ts.map dateTime_rounded).count s

/-- The `(timestamp, mean intensity)` trend series (lines 348-355): one
pair per row of the subset, mean taken across the row. -/
def mean_intensity_series (rows : List (ℤ × List ℚ)) : List (ℤ × ℚ) :=
  rows.map fun r => (r.1, r.2.sum / (r.2.length : ℚ))

/-- Modelled from the claim's words, for comparison with
`strong_spectra_approach2`: strong = union over the contributing columns
of the indices of observations whose value at that column falls STRICTLY
outside the fences. -/
def strong_outlier_spec (M : List (List ℚ)) (klo khi : ℚ) : List ℕ :=
  (List.range M.length).filter fun i =>
    decide (∃ w ∈ outlier M klo khi,
      (col_vals M w).getD i 0 < lower_bound M w klo ∨
        upper_bound M w khi < (col_vals M w).getD i 0)

/-- Modelled from the claim's words, for comparison with `mask`: a row
matches the reference set iff EVERY value of the full row appears in the
flattened reference matrix. -/
def row_full_match (r : List ℚ) (media : List (List ℚ)) : Bool :=
  r.all fun x => decide (x ∈ media.flatten)

/-- Replace the entry at row `i`, column `j` of a matrix. -/
def set_entry : List (List ℚ) → ℕ → ℕ → ℚ → List (List ℚ)
  | [], _, _, _ => []
  | r :: rs, 0, j, v => r.set j v :: rs
  | r :: rs, Nat.succ i, j, v => r :: set_entry rs i j v

/-- `s` and `w` are disjoint index lists that together cover exactly
`{0, ..., N-1}`. -/
def is_index_partition (s w : List ℕ) (N : ℕ) : Prop :=
  (∀ i, i ∈ s → i ∉ w) ∧ ∀ i, i < N ↔ (i ∈ s ∨ i ∈ w)

/-! ### Helper lemmas -/

/-- Complementary filters of `List.range N` form a partition of the index
set. -/
theorem filter_range_partition (N : ℕ) (p : ℕ → Bool) :
    is_index_partition ((List.range N).filter p)
      ((List.range N).filter fun i => !(p i)) N := by
  constructor
  · intro i hs hw
    rw [List.mem_filter] at hs hw
    rw [hs.2] at hw
    exact absurd hw.2 (by simp)
  · intro i
    constructor
    · intro hi
      by_cases h : p i
      · exact Or.inl (List.mem_filter.mpr ⟨List.mem_range.mpr hi, h⟩)
      · exact Or.inr (List.mem_filter.mpr ⟨List.mem_range.mpr hi, by simp [h]⟩)
    · intro h
      rcases h with h | h <;> exact List.mem_range.mp (List.mem_filter.mp h).1

theorem peak_intensities_length (M : List (List ℚ)) :
    (peak_intensities M).length = M.length := by
  simp [peak_intensities]

/-- The threshold classifier's strong/weak lists partition the index set,
for every relax factor. -/
theorem threshold_partition (M : List (List ℚ)) (r : ℚ) :
    is_index_partition (strong_spectra_r M r) (weak_spectra_r M r) M.length := by
  constructor
  · intro i hs hw
    rw [strong_spectra_r, List.mem_filter, decide_eq_true_iff] at hs
    rw [weak_spectra_r, List.mem_filter, decide_eq_true_iff] at hw
    exact absurd (lt_of_le_of_lt hs.2 hw.2) (lt_irrefl _)
  · intro i
    constructor
    · intro hi
      have hi' : i ∈ List.range (peak_intensities M).length :=
        List.mem_range.mpr (by rwa [peak_intensities_length])
      rcases le_or_lt (threshold_relaxed_r M r) ((peak_intensities M).getD i 0) with h | h
      · exact Or.inl (List.mem_filter.mpr ⟨hi', decide_eq_true h⟩)
      · exact Or.inr (List.mem_filter.mpr ⟨hi', decide_eq_true h⟩)
    · intro h
      have : i ∈ List.range (peak_intensities M).length := by
        rcases h with h | h <;> exact (List.mem_filter.mp h).1
      rw [List.mem_range, peak_intensities_length] at this
      exact this

/-- Membership in the contributing-column list of the outlier
classifier. -/
theorem mem_outlier {M : List (List ℚ)} {klo khi : ℚ} {w : ℕ} :
    w ∈ outlier M klo khi ↔
      w < num_cols M ∧ ∃ x ∈ col_vals M w,
        x < lower_bound M w klo ∨ upper_bound M w khi < x := by
  simp [outlier, List.mem_filter, List.mem_range]

/-- Membership in the concatenated strong list of the outlier
classifier. -/
theorem mem_strong_spectra_approach2 {M : List (List ℚ)} {klo khi : ℚ} {i : ℕ} :
    i ∈ strong_spectra_approach2 M klo khi ↔
      ∃ w ∈ outlier M klo khi, i < M.length ∧
        ((col_vals M w).getD i 0 ≤ lower_bound M w klo ∨
          upper_bound M w khi ≤ (col_vals M w).getD i 0) := by
  simp [strong_spectra_approach2, List.mem_filter, List.mem_range]

/-- The outlier classifier's strong/weak lists partition the index set. -/
theorem outlier_partition (M : List (List ℚ)) (klo khi : ℚ) :
    is_index_partition (strong_spectra_approach2 M klo khi)
      (measurement_weak_idx M klo khi) M.length := by
  constructor
  · intro i hs hw
    rw [measurement_weak_idx, List.mem_filter, decide_eq_true_iff] at hw
    exact hw.2 hs
  · intro i
    constructor
    · intro hi
      by_cases h : i ∈ strong_spectra_approach2 M klo khi
      · exact Or.inl h
      · exact Or.inr (List.mem_filter.mpr ⟨List.mem_range.mpr hi, decide_eq_true h⟩)
    · intro h
      rcases h with h | h
      · exact (mem_strong_spectra_approach2.mp h).choose_spec.2.1
      · exact List.mem_range.mp (List.mem_filter.mp h).1

/-- The reference-match classifier's strong/weak lists partition the
index set. -/
theorem ref_partition (meas media : List (List ℚ)) :
    is_index_partition (strong_filtered_idx meas media)
      (non_matching_indexes meas media) meas.length :=
  filter_range_partition meas.length fun i => (mask meas media).getD i false

theorem rat_floor_eq (q : ℚ) : Rat.floor q = ⌊q⌋ := rfl

/-- For a sorted list, reads at increasing in-range positions are
monotone (whatever the defaults). -/
theorem sorted_getD_mono {s : List ℚ} (hs : s.Sorted (· ≤ ·)) {i j : ℕ}
    (hij : i ≤ j) (hj : j < s.length) (d e : ℚ) :
    s.getD i d ≤ s.getD j e := by
  have hi : i < s.length := Nat.lt_of_le_of_lt hij hj
  rw [List.getD_eq_get _ _ hi, List.getD_eq_get _ _ hj]
  rcases Nat.eq_or_lt_of_le hij with h | h
  · subst h
    exact le_of_eq rfl
  · exact hs.rel_get_of_lt (by simpa using h)

/-- `interp` on a sorted list is monotone in the fractional position, on
the valid position range. -/
theorem interp_mono {s : List ℚ} (hs : s.Sorted (· ≤ ·)) {h1 h2 : ℚ}
    (h0 : 0 ≤ h1) (h12 : h1 ≤ h2) (hub : h2 ≤ (s.length : ℚ) - 1) :
    interp s h1 ≤ interp s h2 := by
  have h0' : 0 ≤ h2 := le_trans h0 h12
  set lo1 := (Rat.floor h1).toNat with hlo1_def
  set lo2 := (Rat.floor h2).toNat with hlo2_def
  have hcast1 : ((lo1 : ℤ) : ℚ) = ((⌊h1⌋ : ℤ) : ℚ) := by
    rw [hlo1_def, rat_floor_eq, Int.toNat_of_nonneg (Int.floor_nonneg.mpr h0)]
  have hcast2 : ((lo2 : ℤ) : ℚ) = ((⌊h2⌋ : ℤ) : ℚ) := by
    rw [hlo2_def, rat_floor_eq, Int.toNat_of_nonneg (Int.floor_nonneg.mpr h0')]
  have hlo1_le : (lo1 : ℚ) ≤ h1 := by
    have := Int.floor_le h1
    push_cast at hcast1 ⊢
    linarith [hcast1 ▸ this]
  have hlo2_le : (lo2 : ℚ) ≤ h2 := by
    have := Int.floor_le h2
    push_cast at hcast2 ⊢
    linarith [hcast2 ▸ this]
  have h1_lt : h1 < (lo1 : ℚ) + 1 := by
    have := Int.lt_floor_add_one h1
    push_cast at hcast1 ⊢
    linarith [hcast1 ▸ this]
  have hlo12 : lo1 ≤ lo2 := by
    rw [hlo1_def, hlo2_def, rat_floor_eq, rat_floor_eq]
    exact Int.toNat_le_toNat (Int.floor_le_floor h12)
  have hlo2_lt : lo2 < s.length := by
    have : (lo2 : ℚ) + 1 ≤ (s.length : ℚ) := by linarith
    exact_mod_cast this
  have hb1 : s.getD lo1 0 ≤ s.getD (lo1 + 1) (s.getD lo1 0) := by
    by_cases hrange : lo1 + 1 < s.length
    · exact sorted_getD_mono hs (Nat.le_succ lo1) hrange 0 _
    · rw [List.getD_eq_default _ _ (Nat.le_of_not_lt hrange)]
  have hb2 : s.getD lo2 0 ≤ s.getD (lo2 + 1) (s.getD lo2 0) := by
    by_cases hrange : lo2 + 1 < s.length
    · exact sorted_getD_mono hs (Nat.le_succ lo2) hrange 0 _
    · rw [List.getD_eq_default _ _ (Nat.le_of_not_lt hrange)]
  rcases Nat.eq_or_lt_of_le hlo12 with heq | hlt
  · rw [interp, interp, ← hlo1_def, ← hlo2_def, ← heq]
    have : (h1 - (lo1 : ℚ)) * (s.getD (lo1 + 1) (s.getD lo1 0) - s.getD lo1 0) ≤
        (h2 - (lo1 : ℚ)) * (s.getD (lo1 + 1) (s.getD lo1 0) - s.getD lo1 0) := by
      apply mul_le_mul_of_nonneg_right (by linarith) (by linarith)
    linarith
  · have step1 : interp s h1 ≤ s.getD (lo1 + 1) (s.getD lo1 0) := by
      rw [interp, ← hlo1_def]
      have : (h1 - (lo1 : ℚ)) * (s.getD (lo1 + 1) (s.getD lo1 0) - s.getD lo1 0) ≤
          1 * (s.getD (lo1 + 1) (s.getD lo1 0) - s.getD lo1 0) := by
        apply mul_le_mul_of_nonneg_right (by linarith) (by linarith)
      linarith
    have step2 : s.getD (lo1 + 1) (s.getD lo1 0) ≤ s.getD lo2 0 :=
      sorted_getD_mono hs hlt hlo2_lt _ 0
    have step3 : s.getD lo2 0 ≤ interp s h2 := by
      rw [interp, ← hlo2_def]
      have : 0 ≤ (h2 - (lo2 : ℚ)) * (s.getD (lo2 + 1) (s.getD lo2 0) - s.getD lo2 0) :=
        mul_nonneg (by linarith) (by linarith)
      linarith
    linarith

theorem sorted_vals_sorted (xs : List ℚ) : (sorted_vals xs).Sorted (· ≤ ·) :=
  List.sorted_insertionSort _ xs

theorem sorted_vals_length (xs : List ℚ) : (sorted_vals xs).length = xs.length :=
  List.length_insertionSort _ xs

/-- The interquartile range is nonnegative: the 0.75 quantile is at
least the 0.25 quantile. -/
theorem iqr_nonneg (xs : List ℚ) : quantile xs (1 / 4) ≤ quantile xs (3 / 4) := by
  rcases eq_or_ne xs [] with h | h
  · subst h
    simp [quantile, sorted_vals, interp]
  · have hn : 1 ≤ xs.length := List.length_pos.mpr h
    have hn' : (1 : ℚ) ≤ (xs.length : ℚ) := by exact_mod_cast hn
    rw [quantile, quantile]
    apply interp_mono (sorted_vals_sorted xs)
    · exact mul_nonneg (by linarith) (by norm_num)
    · apply mul_le_mul_of_nonneg_left (by norm_num) (by linarith)
    · rw [sorted_vals_length]
      calc ((xs.length : ℚ) - 1) * (3 / 4) ≤ ((xs.length : ℚ) - 1) * 1 :=
            mul_le_mul_of_nonneg_left (by norm_num) (by linarith)
        _ = (xs.length : ℚ) - 1 := mul_one _

/-- Raising the lower-fence multiplier lowers (or keeps) the lower
fence. -/
theorem lower_bound_antitone (M : List (List ℚ)) (w : ℕ) {klo klo' : ℚ}
    (h : klo ≤ klo') : lower_bound M w klo' ≤ lower_bound M w klo := by
  have hiqr := iqr_nonneg (col_vals M w)
  have : klo * (quantile (col_vals M w) (3 / 4) - quantile (col_vals M w) (1 / 4)) ≤
      klo' * (quantile (col_vals M w) (3 / 4) - quantile (col_vals M w) (1 / 4)) :=
    mul_le_mul_of_nonneg_right h (by linarith)
  rw [lower_bound, lower_bound]
  linarith

/-- Raising the upper-fence multiplier raises (or keeps) the upper
fence. -/
theorem upper_bound_monotone (M : List (List ℚ)) (w : ℕ) {khi khi' : ℚ}
    (h : khi ≤ khi') : upper_bound M w khi ≤ upper_bound M w khi' := by
  have hiqr := iqr_nonneg (col_vals M w)
  have : khi * (quantile (col_vals M w) (3 / 4) - quantile (col_vals M w) (1 / 4)) ≤
      khi' * (quantile (col_vals M w) (3 / 4) - quantile (col_vals M w) (1 / 4)) :=
    mul_le_mul_of_nonneg_right h (by linarith)
  rw [upper_bound, upper_bound]
  linarith

/-- All reported bucket starts are multiples of ten minutes. -/
theorem count_by_period_starts_dvd (ts : List ℤ) :
    ∀ x ∈ count_by_period_starts ts, (10 : ℤ) ∣ x := by
  intro x hx
  have hx1 : x ∈ (ts.map dateTime_rounded).dedup :=
    (List.perm_insertionSort _ _).mem_iff.mp hx
  have hx2 : x ∈ ts.map dateTime_rounded := List.mem_dedup.mp hx1
  obtain ⟨t, _, rfl⟩ := List.mem_map.mp hx2
  exact ⟨Int.fdiv t 10, rfl⟩

/-- The reported bucket starts are strictly increasing and at least ten
minutes apart. -/
theorem count_by_period_starts_spaced (ts : List ℤ) :
    List.Pairwise (fun s1 s2 => s1 + 10 ≤ s2) (count_by_period_starts ts) := by
  have hsorted : (count_by_period_starts ts).Sorted (· ≤ ·) :=
    List.sorted_insertionSort _ _
  have hnodup : (count_by_period_starts ts).Nodup :=
    (List.perm_insertionSort _ _).symm.nodup (List.nodup_dedup _)
  have hlt : (count_by_period_starts ts).Sorted (· < ·) := hsorted.lt_of_le hnodup
  have hdvd := count_by_period_starts_dvd ts
  apply List.pairwise_iff_get.mpr
  intro i j hij
  have h1 := hlt.rel_get_of_lt hij
  have d1 : (10 : ℤ) ∣ (count_by_period_starts ts).get i :=
    hdvd _ (List.get_mem _ _ i.isLt)
  have d2 : (10 : ℤ) ∣ (count_by_period_starts ts).get j :=
    hdvd _ (List.get_mem _ _ j.isLt)
  omega

/-- The bucket counts sum to the number of aggregated observations. -/
theorem count_by_period_total (ts : List ℤ) :
    (count_by_period_counts ts).sum = ts.length := by
  rw [count_by_period_counts, count_by_period_starts]
  have hperm : List.Perm (List.insertionSort (· ≤ ·) (ts.map dateTime_rounded).dedup)
      (ts.map dateTime_rounded).dedup := List.perm_insertionSort _ _
  rw [(hperm.map _).sum_eq, List.sum_map_count_dedup_eq_length, List.length_map]

/-- Reading the mask of row `i` (in range) gives the row's matching
test. -/
theorem mask_getD {meas media : List (List ℚ)} {i : ℕ} (h : i < meas.length) :
    (mask meas media).getD i false =
      !(((meas.getD i []).drop 1).all fun x => decide (x ∈ media_intensities media)) := by
  rw [mask]
  have hlen : i < (meas.map fun r =>
      !((r.drop 1).all fun x => decide (x ∈ media_intensities media))).length := by
    simpa using h
  rw [List.getD_eq_getElem _ _ hlen, List.getElem_map, List.getD_eq_getElem _ _ h]

theorem set_entry_length (M : List (List ℚ)) (i j : ℕ) (v : ℚ) :
    (set_entry M i j v).length = M.length := by
  induction M generalizing i with
  | nil => rfl
  | cons r rs ih => cases i with
    | zero => simp [set_entry]
    | succ k => simp [set_entry, ih k]

theorem drop_one_set_zero (r : List ℚ) (v : ℚ) : (r.set 0 v).drop 1 = r.drop 1 := by
  cases r <;> rfl

theorem tail_set_zero (r : List ℚ) (v : ℚ) : (r.set 0 v).tail = r.tail := by
  cases r <;> rfl

/-- Overwriting the first intensity column of any measurement row leaves
the approach-3 mask unchanged: the mask only reads columns from position
1 on. -/
theorem mask_set_entry (meas media : List (List ℚ)) (i : ℕ) (v : ℚ) :
    mask (set_entry meas i 0 v) media = mask meas media := by
  induction meas generalizing i with
  | nil => rfl
  | cons r rs ih => cases i with
    | zero => simp [set_entry, mask, tail_set_zero]
    | succ k =>
      have := ih k
      simp only [mask, List.map_cons] at this ⊢
      rw [set_entry]
      simp only [List.map_cons]
      exact congrArg _ this

set_option maxRecDepth 8000

unseal Rat.add Rat.mul Rat.sub Rat.inv Rat.ofScientific

/-! ### Claim theorems -/

/-- C1: for every run of the threshold, outlier, and reference-match
classifiers, the strong and weak index sets are disjoint and their union
is exactly the full index set of the N observation rows. -/
theorem claim_partition_exhaustive_disjoint (M meas media : List (List ℚ)) :
    is_index_partition (strong_spectra M) (weak_spectra M) M.length ∧
    is_index_partition (strong_spectra_approach2 M 5 4)
      (measurement_weak_idx M 5 4) M.length ∧
    is_index_partition (strong_filtered_idx meas media)
      (non_matching_indexes meas media) meas.length :=
  ⟨threshold_partition M (715 / 1000), outlier_partition M 5 4, ref_partition meas media⟩

/-- C2 (counterexample): on the single-column matrix with values
0,0,0,0,10 both quartiles are 0, so the fences collapse to [0,0]; the
collection pass uses non-strict comparisons, hence the code's strong set
contains index 0 (value 0, exactly on the fence) even though 0 does not
fall strictly outside the fences as the claim requires. -/
theorem claim_outlier_strict_fence_counterexample :
    (0 : ℕ) ∈ strong_spectra_approach2 [[0], [0], [0], [0], [10]] 5 4 ∧
    (0 : ℕ) ∉ strong_outlier_spec [[0], [0], [0], [0], [10]] 5 4 := by
  constructor
  · decide
  · decide

/-- C2 (amended): the outlier classifier's strong set is the union, over
the contributing columns (those having some value STRICTLY outside the
fences), of the indices of observations whose value at that column is
less than or equal to the lower fence or greater than or equal to the
upper fence; the weak set is the complement. -/
theorem claim_outlier_strong_characterization (M : List (List ℚ)) (i w : ℕ) :
    (w ∈ outlier M 5 4 ↔
      w < num_cols M ∧ ∃ x ∈ col_vals M w,
        x < lower_bound M w 5 ∨ upper_bound M w 4 < x) ∧
    (i ∈ strong_spectra_approach2 M 5 4 ↔
      ∃ w' ∈ outlier M 5 4, i < M.length ∧
        ((col_vals M w').getD i 0 ≤ lower_bound M w' 5 ∨
          upper_bound M w' 4 ≤ (col_vals M w').getD i 0)) ∧
    (i ∈ measurement_weak_idx M 5 4 ↔
      i < M.length ∧ i ∉ strong_spectra_approach2 M 5 4) := by
  refine ⟨mem_outlier, mem_strong_spectra_approach2, ?_⟩
  simp [measurement_weak_idx, List.mem_filter, List.mem_range]

/-- C3: the threshold classifier takes each observation's peak intensity
as its row maximum, relaxes the Otsu threshold by the factor 0.715, and
labels strong exactly the rows whose peak reaches the relaxed threshold
and weak exactly the remaining rows. -/
theorem claim_threshold_classifier (M : List (List ℚ)) (i : ℕ) :
    peak_intensities M = M.map list_max ∧
    threshold_relaxed M = threshold_otsu (peak_intensities M) * (715 / 1000) ∧
    (i ∈ strong_spectra M ↔
      i < M.length ∧ threshold_relaxed M ≤ (peak_intensities M).getD i 0) ∧
    (i ∈ weak_spectra M ↔
      i < M.length ∧ (peak_intensities M).getD i 0 < threshold_relaxed M) := by
  refine ⟨rfl, rfl, ?_, ?_⟩
  · rw [strong_spectra, strong_spectra_r, List.mem_filter, List.mem_range,
      peak_intensities_length, decide_eq_true_iff]
    exact Iff.rfl
  · rw [weak_spectra, weak_spectra_r, List.mem_filter, List.mem_range,
      peak_intensities_length, decide_eq_true_iff]
    exact Iff.rfl

/-- C4 (counterexample): with measurement row [5, 2] and reference row
[9, 2], the value 5 at the first intensity column is absent from the
reference values, so the claim labels the row strong; the code compares
only columns from dataframe position 11 on and labels it weak. -/
theorem claim_ref_match_counterexample :
    non_matching_indexes [[5, 2]] [[9, 2]] = [0] ∧
    row_full_match [5, 2] [[9, 2]] = false := by
  constructor
  · decide
  · decide

/-- C4 (amended): the reference-match classifier labels a row weak
exactly when every value of the row FROM THE SECOND INTENSITY COLUMN ON
appears somewhere in the flattened reference values, the reference
likewise restricted to its second intensity column on; strong is the
complement. -/
theorem claim_ref_match_characterization (meas media : List (List ℚ)) (i : ℕ) :
    (i ∈ non_matching_indexes meas media ↔
      i < meas.length ∧
        ∀ x ∈ (meas.getD i []).drop 1, x ∈ media_intensities media) ∧
    (i ∈ strong_filtered_idx meas media ↔
      i < meas.length ∧
        ¬ ∀ x ∈ (meas.getD i []).drop 1, x ∈ media_intensities media) := by
  by_cases h : i < meas.length
  · constructor
    · rw [non_matching_indexes, List.mem_filter, List.mem_range]
      rw [mask_getD h]
      simp [h, List.all_eq_true]
    · rw [strong_filtered_idx, List.mem_filter, List.mem_range]
      rw [mask_getD h]
      simp [h, List.all_eq_true]
  · constructor
    · rw [non_matching_indexes, List.mem_filter, List.mem_range]
      simp [h]
    · rw [strong_filtered_idx, List.mem_filter, List.mem_range]
      simp [h]

/-- C5 (counterexample): aggregating the timestamps 0 and 25 minutes
reports the occupied buckets [0,10) and [20,30) only; the bucket
[10,20) is skipped, so the reported buckets are not contiguous as the
claim states. -/
theorem claim_temporal_contiguity_counterexample :
    count_by_period_starts [0, 25] = [0, 20] ∧
    count_by_period_counts [0, 25] = [1, 1] ∧
    (0 : ℤ) + 10 ≠ 20 := by
  refine ⟨by decide, by decide, by decide⟩

/-- C5 (amended): for every temporal aggregation run, the per-bucket
counts sum to the number of aggregated timestamps; the reported buckets
are non-overlapping 10-minute intervals (starts on the 10-minute grid,
each at least 10 minutes before the next) in strictly ascending order,
though not necessarily contiguous since empty buckets are omitted; an
empty subset yields empty outputs for both the bucket sequence and the
mean-intensity trend series. -/
theorem claim_temporal_aggregation (ts : List ℤ) (rows : List (ℤ × List ℚ)) :
    (count_by_period_counts ts).sum = ts.length ∧
    List.Pairwise (fun s1 s2 => s1 + 10 ≤ s2) (count_by_period_starts ts) ∧
    (∀ x ∈ count_by_period_starts ts, (10 : ℤ) ∣ x) ∧
    (ts = [] → count_by_period_starts ts = [] ∧ count_by_period_counts ts = []) ∧
    (rows = [] → mean_intensity_series rows = []) := by
  refine ⟨count_by_period_total ts, count_by_period_starts_spaced ts,
    count_by_period_starts_dvd ts, ?_, ?_⟩
  · rintro rfl
    exact ⟨rfl, rfl⟩
  · rintro rfl
    rfl

/-- C5 (witness): the amended aggregation properties instantiated on the
empty subset, discharging the emptiness hypotheses. -/
theorem claim_temporal_aggregation_witness :
    (count_by_period_counts ([] : List ℤ)).sum = 0 ∧
    count_by_period_starts ([] : List ℤ) = [] ∧
    mean_intensity_series ([] : List (ℤ × List ℚ)) = [] := by
  have h := claim_temporal_aggregation ([] : List ℤ) ([] : List (ℤ × List ℚ))
  exact ⟨h.1, (h.2.2.2.1 rfl).1, h.2.2.2.2 rfl⟩

/-- C6 (counterexample): a measurement dataset with wavenumber axis
[1,2,3] and a reference dataset with the different axis [4,5] do not
make the reference-match run fail: it still returns the partition
(strong = [0], weak = []). -/
theorem claim_axis_mismatch_counterexample :
    ([1, 2, 3] : List ℚ) ≠ [4, 5] ∧
    ref_match_run [1, 2, 3] [4, 5] [[1, 2, 3]] [[4, 5]] = ([0], []) := by
  refine ⟨by decide, by decide⟩

/-- C6 (amended): the reference-match classifier performs no wavenumber
axis validation: even when the two axes differ in length or values it
produces a strong/weak partition of the measurement rows rather than
failing. -/
theorem claim_no_axis_check (measAxis mediaAxis : List ℚ)
    (meas media : List (List ℚ)) (hax : measAxis ≠ mediaAxis) :
    is_index_partition (ref_match_run measAxis mediaAxis meas media).1
      (ref_match_run measAxis mediaAxis meas media).2 meas.length :=
  ref_partition meas media

/-- C6 (witness): the amended no-axis-check theorem applied to the
concrete mismatched axes [1,2,3] and [4,5]. -/
theorem claim_no_axis_check_witness :
    ([1, 2, 3] : List ℚ) ≠ [4, 5] ∧
    is_index_partition (ref_match_run [1, 2, 3] [4, 5] [[1, 2, 3]] [[4, 5]]).1
      (ref_match_run [1, 2, 3] [4, 5] [[1, 2, 3]] [[4, 5]]).2 1 :=
  ⟨by decide, claim_no_axis_check [1, 2, 3] [4, 5] [[1, 2, 3]] [[4, 5]] (by decide)⟩

/-- C7 (counterexample): on the matrix [[-1],[-1]] all peaks equal -1,
so the Otsu threshold is -1 (negative); with relax factors 1/2 ≤ 1 the
weak set at factor 1 is strictly smaller than at factor 1/2, refuting
the claimed monotonicity for arbitrary intensity matrices. -/
theorem claim_relax_monotonicity_counterexample :
    (1 : ℚ) / 2 ≤ 1 ∧ (1 : ℚ) ≤ 1 ∧
    (weak_spectra_r [[-1], [-1]] 1).length <
      (weak_spectra_r [[-1], [-1]] (1 / 2)).length := by
  refine ⟨by decide, by decide, by decide⟩

/-- C7 (amended): provided the Otsu threshold of the peak-intensity
distribution is nonnegative (as it is whenever all intensities are
nonnegative), raising the relax factor never shrinks the weak set. -/
theorem claim_relax_monotonicity (M : List (List ℚ)) (r1 r2 : ℚ)
    (hth : 0 ≤ threshold_otsu (peak_intensities M))
    (h12 : r1 ≤ r2) (h21 : r2 ≤ 1) :
    (weak_spectra_r M r1).length ≤ (weak_spectra_r M r2).length := by
  rw [weak_spectra_r, weak_spectra_r, ← List.countP_eq_length_filter,
    ← List.countP_eq_length_filter]
  apply List.countP_mono_left
  intro i _ h
  rw [decide_eq_true_iff] at h ⊢
  rw [threshold_relaxed_r] at h ⊢
  calc (peak_intensities M).getD i 0
      < threshold_otsu (peak_intensities M) * r1 := h
    _ ≤ threshold_otsu (peak_intensities M) * r2 :=
      mul_le_mul_of_nonneg_left h12 hth

/-- C7 (witness): the amended monotonicity applied to the concrete
matrix [[1],[1]] (threshold 1 ≥ 0) and relax factors 1/2 ≤ 1. -/
theorem claim_relax_monotonicity_witness :
    (0 : ℚ) ≤ threshold_otsu (peak_intensities [[1], [1]]) ∧
    (1 : ℚ) / 2 ≤ 1 ∧ (1 : ℚ) ≤ 1 ∧
    (weak_spectra_r [[1], [1]] (1 / 2)).length ≤
      (weak_spectra_r [[1], [1]] 1).length :=
  ⟨by decide, by decide, by decide,
    claim_relax_monotonicity [[1], [1]] (1 / 2) 1 (by decide) (by decide) (by decide)⟩

/-- C8: widening both fence multipliers shrinks (or keeps) the outlier
classifier's strong set: every index strong under the larger multipliers
is strong under the smaller ones. -/
theorem claim_fence_multiplier_antitone (M : List (List ℚ))
    (klo khi klo' khi' : ℚ) (h1 : klo ≤ klo') (h2 : khi ≤ khi') :
    ∀ i, i ∈ strong_spectra_approach2 M klo' khi' →
      i ∈ strong_spectra_approach2 M klo khi := by
  intro i hi
  rw [mem_strong_spectra_approach2] at hi ⊢
  obtain ⟨w, hw, hilen, hcond⟩ := hi
  have hlow := lower_bound_antitone M w h1
  have hup := upper_bound_monotone M w h2
  refine ⟨w, ?_, hilen, ?_⟩
  · rw [mem_outlier] at hw ⊢
    obtain ⟨hwlt, x, hx, hout⟩ := hw
    refine ⟨hwlt, x, hx, ?_⟩
    rcases hout with h | h
    · exact Or.inl (lt_of_lt_of_le h hlow)
    · exact Or.inr (lt_of_le_of_lt hup h)
  · rcases hcond with h | h
    · exact Or.inl (le_trans h hlow)
    · exact Or.inr (le_trans hup h)

/-- C8 (witness): the antitonicity applied at the concrete matrix with
column values 0,0,0,0,10 and multiplier pairs (5,4) ≤ (6,5). -/
theorem claim_fence_multiplier_antitone_witness :
    (5 : ℚ) ≤ 6 ∧ (4 : ℚ) ≤ 5 ∧
    ∀ i, i ∈ strong_spectra_approach2 [[0], [0], [0], [0], [10]] 6 5 →
      i ∈ strong_spectra_approach2 [[0], [0], [0], [0], [10]] 5 4 :=
  ⟨by decide, by decide,
    claim_fence_multiplier_antitone [[0], [0], [0], [0], [10]] 5 4 6 5
      (by decide) (by decide)⟩

/-- C9 (counterexample): on the matrix [[1,1],[1,1]] all peak
intensities are identical (1), yet the classifier does not fail:
`threshold_otsu` returns the common value and the run produces the
partition strong = [0,1], weak = []. -/
theorem claim_degenerate_input_counterexample :
    peak_intensities [[1, 1], [1, 1]] = [1, 1] ∧
    threshold_otsu (peak_intensities [[1, 1], [1, 1]]) = 1 ∧
    strong_spectra [[1, 1], [1, 1]] = [0, 1] ∧
    weak_spectra [[1, 1], [1, 1]] = [] := by
  refine ⟨by decide, by decide, by decide, by decide⟩

/-- C9 (amended): when all peak intensities equal a common value `c`,
the threshold classifier does not fail: `threshold_otsu` returns `c`
(the library's constant-input early return), the run still produces a
partition, and for `c ≥ 0` every row is strong (since 0.715·c ≤ c). -/
theorem claim_degenerate_input (M : List (List ℚ)) (c : ℚ) (hne : M ≠ [])
    (hc : ∀ p ∈ peak_intensities M, p = c) :
    threshold_otsu (peak_intensities M) = c ∧
    is_index_partition (strong_spectra M) (weak_spectra M) M.length ∧
    (0 ≤ c → strong_spectra M = List.range M.length) := by
  have hlen : (peak_intensities M).length = M.length := peak_intensities_length M
  have hne' : peak_intensities M ≠ [] := by
    intro h
    exact hne (List.length_eq_zero.mp (by rw [← hlen, h, List.length_nil]))
  obtain ⟨p, rest, heq⟩ := List.exists_cons_of_ne_nil hne'
  have hp : p = c := hc p (heq ▸ List.mem_cons_self p rest)
  have hall : (rest.all fun x => decide (x = p)) = true := by
    rw [List.all_eq_true]
    intro x hx
    exact decide_eq_true (by rw [hc x (heq ▸ List.mem_cons_of_mem p hx), hp])
  have hthr : threshold_otsu (peak_intensities M) = c := by
    rw [heq, threshold_otsu, if_pos hall, hp]
  refine ⟨hthr, threshold_partition M (715 / 1000), ?_⟩
  intro hc0
  rw [strong_spectra, strong_spectra_r, hlen]
  apply List.filter_eq_self.mpr
  intro i hi
  apply decide_eq_true
  have hgd : (peak_intensities M).getD i 0 = c := by
    have hi' : i < (peak_intensities M).length := by
      rw [hlen]
      exact List.mem_range.mp hi
    rw [List.getD_eq_getElem _ _ hi']
    exact hc _ (List.getElem_mem hi')
  rw [hgd, threshold_relaxed_r, hthr]
  exact mul_le_of_le_one_right hc0 (by norm_num)

/-- C9 (witness): the amended degenerate-input behaviour applied at the
concrete constant-peak matrix [[1,1],[1,1]] with common value 1. -/
theorem claim_degenerate_input_witness :
    threshold_otsu (peak_intensities [[1, 1], [1, 1]]) = 1 ∧
    is_index_partition (strong_spectra [[1, 1], [1, 1]])
      (weak_spectra [[1, 1], [1, 1]]) 2 ∧
    (0 ≤ (1 : ℚ) → strong_spectra [[1, 1], [1, 1]] = List.range 2) :=
  claim_degenerate_input [[1, 1], [1, 1]] 1 (by decide) (by decide)

/-- C10: overwriting a measurement row's value at the first intensity
column (dataframe position 10) never changes the reference-match
partition, because that classifier slices both tables from position 11
on; the same value does influence the threshold and outlier classifiers,
witnessed by concrete runs whose strong sets change. -/
theorem claim_column_position_offset (meas media : List (List ℚ)) (i : ℕ) (v : ℚ) :
    (strong_filtered_idx (set_entry meas i 0 v) media =
        strong_filtered_idx meas media ∧
      non_matching_indexes (set_entry meas i 0 v) media =
        non_matching_indexes meas media) ∧
    strong_spectra (set_entry [[-2]] 0 0 1) ≠ strong_spectra [[-2]] ∧
    strong_spectra_approach2 (set_entry [[0], [0], [0], [0], [10]] 4 0 0) 5 4 ≠
      strong_spectra_approach2 [[0], [0], [0], [0], [10]] 5 4 := by
  refine ⟨⟨?_, ?_⟩, by decide, by decide⟩
  · rw [strong_filtered_idx, strong_filtered_idx, mask_set_entry, set_entry_length]
  · rw [non_matching_indexes, non_matching_indexes, mask_set_entry, set_entry_length]
